import Mathlib

/-!
Verification of the PDF redaction pipeline of the pdf-redaction-tool
repository, as a shallow embedding in Lean.

Byte buffers are lists of naturals; JavaScript numbers used for rectangle
coordinates are modelled as rationals.  The external collaborators
(pdf-lib's document model and pdf.js's renderer) are modelled as an
abstract environment: a strategy run either throws (`Except.error`) or
returns a candidate byte buffer, and `loadOk` tells whether a strict
`PDFDocument.load` of a buffer succeeds.  Everything the executor itself
does with those outcomes (ordering, validation, fallbacks) is translated
from the source.
-/

namespace PdfRedact

/-- Byte buffers (`Uint8Array` in the source) as lists of bytes. -/
abbrev Bytes := List Nat

/-- A user-drawn redaction rectangle (src/app/types/pdf.ts): `pageNumber`
is 1-indexed, `x`, `y`, `width`, `height` are display-space pixel
coordinates. -/
structure RedactionArea where
  pageNumber : Nat
  x : ℚ
  y : ℚ
  width : ℚ
  height : ℚ
deriving DecidableEq

/-- `REDACTION_SETTINGS.minSelectionSize` (src/app/constants/pdf.ts, line 15). -/
def minSelectionSize : ℚ := 10

/-! ## Coordinate mapping of the direct-overlay strategy

Translated from `processRedactions` (pdfUtils, lines 149-157): the code
uses the stored display coordinates directly against the page's point
dimensions; no division by a display scale appears anywhere. -/

/-- `const x = Math.max(0, Math.min(area.x, pageWidth))`. -/
def overlayX (a : RedactionArea) (pageWidth : ℚ) : ℚ :=
  max 0 (min a.x pageWidth)

/-- `const y = Math.max(0, pageHeight - (area.y + area.height))`. -/
def overlayY (a : RedactionArea) (pageHeight : ℚ) : ℚ :=
  max 0 (pageHeight - (a.y + a.height))

/-- `const rectWidth = Math.max(1, Math.min(area.width, pageWidth - x))`. -/
def overlayW (a : RedactionArea) (pageWidth : ℚ) : ℚ :=
  max 1 (min a.width (pageWidth - overlayX a pageWidth))

/-- `const rectHeight = Math.max(1, Math.min(area.height, area.y + area.height - Math.max(0, area.y)))`. -/
def overlayH (a : RedactionArea) : ℚ :=
  max 1 (min a.height (a.y + a.height - max 0 a.y))

/-- `clamp(v, lo, hi)` as used by the specification text. -/
def clamp (v lo hi : ℚ) : ℚ := max lo (min v hi)

/-- Modelled from the spec: `x_doc = clamp(area.x / displayScale, 0, pageWidthPts)`
(spec section 4.1); the source has no such scale division, this definition
exists only to compare the spec's formula with the code. -/
def specDocX (a : RedactionArea) (pageWidth scale : ℚ) : ℚ :=
  clamp (a.x / scale) 0 pageWidth

/-- Modelled from the spec:
`y_doc = clamp(pageHeightPts - (area.y + area.height) / displayScale, 0, pageHeightPts)`. -/
def specDocY (a : RedactionArea) (pageHeight scale : ℚ) : ℚ :=
  clamp (pageHeight - (a.y + a.height) / scale) 0 pageHeight

/-- Modelled from the spec:
`width_doc = clamp(area.width / displayScale, 1, pageWidthPts - x_doc)`. -/
def specDocW (a : RedactionArea) (pageWidth scale : ℚ) : ℚ :=
  clamp (a.width / scale) 1 (pageWidth - specDocX a pageWidth scale)

/-! ## The redaction-area store

`PDFCanvas.handleMouseUp` (PDFCanvas.tsx, lines 361-397) decides whether a
finished drag becomes an area; `PDFViewer` holds the list and appends
(line 85), removes by index (lines 328-330) or clears it (line 77). -/

/-- Normalization performed on a finished drag: negative extents are folded
into the origin and width/height become absolute values. -/
def normalizeArea (c : RedactionArea) : RedactionArea :=
  { c with
    x := if c.width < 0 then c.x + c.width else c.x
    y := if c.height < 0 then c.y + c.height else c.y
    width := |c.width|
    height := |c.height| }

/-- `handleMouseUp`: the drag becomes an area only when both absolute
extents strictly exceed `minSelectionSize`. -/
def finishSelection (c : RedactionArea) : Option RedactionArea :=
  if minSelectionSize < |c.width| ∧ minSelectionSize < |c.height| then
    some (normalizeArea c)
  else
    none

/-- A finished drag reaching `PDFViewer.handleRedactionAreaCreated` is
appended to the store; a rejected drag leaves the store unchanged. -/
def addFromMouseUp (store : List RedactionArea) (c : RedactionArea) :
    List RedactionArea :=
  match finishSelection c with
  | some a => store ++ [a]
  | none => store

/-- `onRemoveArea`: `redactionAreas.filter((_, i) => i !== index)`. -/
def removeAreaAt (store : List RedactionArea) (idx : Nat) : List RedactionArea :=
  (store.enum.filter (fun p => p.1 ≠ idx)).map Prod.snd

/-- `setRedactionAreas([])` on a new document load. -/
def clearAreas : List RedactionArea := []

/-- The store invariant: every held area's extents strictly exceed the
configured minimum selection size. -/
def storeInv (store : List RedactionArea) : Prop :=
  ∀ a ∈ store, minSelectionSize < a.width ∧ minSelectionSize < a.height

/-! ## The strategy executor -/

/-- Abstract outcomes of the external collaborators for a given source:
`loadOk b` is whether a strict `PDFDocument.load(b)` succeeds;
`screenshotRun` is `screenshotBasedRedaction`, `overlayRun` the main
draw-and-save block of `processRedactions`, `rebuildRun` its
copy-into-new-document fallback block, and `canvasRun` is
`canvasRedaction`; each either throws or produces candidate bytes. -/
structure PdfEnv where
  loadOk : Bytes → Bool
  screenshotRun : Bytes → List RedactionArea → Except Unit Bytes
  overlayRun : Bytes → List RedactionArea → Except Unit Bytes
  rebuildRun : Bytes → List RedactionArea → Except Unit Bytes
  canvasRun : Bytes → List RedactionArea → Except Unit Bytes

/-- The minimum plausible output size: every validation site rejects
candidates shorter than 1000 bytes. -/
def minPlausibleSize : Nat := 1000

/-- The PDF file signature `%PDF`. -/
def pdfSignature : Bytes := [0x25, 0x50, 0x44, 0x46]

/-- Whether a buffer's leading bytes are the PDF signature (the source
decodes the first 8 bytes and tests `startsWith('%PDF')`, which for this
ASCII signature is exactly a prefix test on the first four bytes). -/
def hasPdfHeader (b : Bytes) : Bool := pdfSignature.isPrefixOf b

/-- The three validation checks applied to a candidate buffer: minimum
plausible size, PDF signature, and a successful strict reload. -/
def validCandidate (loadOk : Bytes → Bool) (b : Bytes) : Bool :=
  decide (minPlausibleSize ≤ b.length) && hasPdfHeader b && loadOk b

/-- The fallback block of `processRedactions` (lines 228-334): rebuild into
a new document, validate, and on any failure return the original bytes. -/
def rebuildFallback (env : PdfEnv) (orig : Bytes) (areas : List RedactionArea) :
    Bytes :=
  match env.rebuildRun orig areas with
  | Except.ok c => if validCandidate env.loadOk c then c else orig
  | Except.error _ => orig

/-- `processRedactions` (pdfUtils, lines 51-342): empty areas return the
original; a failed strict verification load returns the original (the
outer catch); otherwise the overlay candidate is produced and validated,
falling back to the rebuild block and finally to the original bytes. -/
def processRedactions (env : PdfEnv) (orig : Bytes) (areas : List RedactionArea) :
    Bytes :=
  if areas.isEmpty then orig
  else if env.loadOk orig then
    match env.overlayRun orig areas with
    | Except.ok c =>
        if validCandidate env.loadOk c then c else rebuildFallback env orig areas
    | Except.error _ => rebuildFallback env orig areas
  else orig

/-- The executor's per-attempt check (redactPDF, lines 718-748): a thrown
attempt is skipped, a returned candidate is accepted only when it passes
all three validation checks. -/
def acceptAttempt (loadOk : Bytes → Bool) (r : Except Unit Bytes) : Option Bytes :=
  match r with
  | Except.ok b => if validCandidate loadOk b then some b else none
  | Except.error _ => none

/-- `redactPDF` (pdfUtils, lines 672-759): the `copyOnly`/empty-area
short-circuit, then the three attempts in their fixed order (screenshot,
primary `processRedactions`, canvas), each validated, and the original
bytes on exhaustion.  `processRedactions` never throws, so its attempt is
always an `Except.ok`. -/
def redactPDF (env : PdfEnv) (orig : Bytes) (areas : List RedactionArea)
    (copyOnly : Bool) : Bytes :=
  if copyOnly || areas.isEmpty then orig
  else
    match acceptAttempt env.loadOk (env.screenshotRun orig areas) with
    | some b => b
    | none =>
      match acceptAttempt env.loadOk (Except.ok (processRedactions env orig areas)) with
      | some b => b
      | none =>
        match acceptAttempt env.loadOk (env.canvasRun orig areas) with
        | some b => b
        | none => orig

/-! ## The unlock helper (src/app/utils/pdfUnlocker.ts) -/

/-- Abstract document model for the unlocker: `loadIgnoreEnc` loads bytes
with `ignoreEncryption: true` into a list of pages (pages are opaque,
modelled as naturals), `copyPage` is one `copyPages(original, [i])` clone,
and `savePages` serializes a destination document. -/
structure UnlockEnv where
  loadIgnoreEnc : Bytes → Except String (List Nat)
  copyPage : Nat → Nat
  savePages : List Nat → Bytes

/-- The copy loop of `unlockPdf` (lines 31-37): for each index `i` below
the source page count, clone page `i` and append it to the destination. -/
def copyAllPages (env : UnlockEnv) (doc : List Nat) : List Nat :=
  (List.range doc.length).map (fun i => env.copyPage (doc.getD i 0))

/-- `unlockPdf` (lines 14-48): load ignoring encryption, copy all pages
into a fresh document, save; any failure surfaces as the single wrapped
error message. -/
def unlockPdf (env : UnlockEnv) (b : Bytes) : Except String Bytes :=
  match env.loadIgnoreEnc b with
  | Except.ok doc => Except.ok (env.savePages (copyAllPages env doc))
  | Except.error _ => Except.error "Failed to unlock the PDF document."

/-- The destination document `unlockPdf` builds before serialization. -/
def unlockDoc (env : UnlockEnv) (b : Bytes) : Except String (List Nat) :=
  match env.loadIgnoreEnc b with
  | Except.ok doc => Except.ok (copyAllPages env doc)
  | Except.error _ => Except.error "Failed to unlock the PDF document."

/-! ## Encryption detection (src/app/utils/pdfUnlocker.ts, lines 55-78) -/

/-- Outcome of a strict `PDFDocument.load`: success, or a thrown value
carrying `some message` when it is an `Error` and `none` otherwise. -/
abbrev StrictLoad := Bytes → Except (Option String) Unit

/-- `hay.includes(needle)` on strings. -/
def containsSubstr (hay needle : String) : Bool :=
  decide (needle.toList <:+: hay.toList)

/-- The message test of `isPdfEncrypted`'s catch block. -/
def mentionsEncryption (msg : String) : Bool :=
  containsSubstr msg "encrypt" || containsSubstr msg "password" ||
    containsSubstr msg "permission"

/-- `isPdfEncrypted`: a successful strict load means not encrypted; a
thrown `Error` whose message mentions encryption, password or permission
means encrypted; every other failure (including non-`Error` throws) means
not encrypted. -/
def isPdfEncrypted (strictLoad : StrictLoad) (b : Bytes) : Bool :=
  match strictLoad b with
  | Except.ok _ => false
  | Except.error none => false
  | Except.error (some msg) => mentionsEncryption msg

/-! ## Concrete test data -/

/-- A deliberately malformed (truncated) byte buffer: it does not carry the
PDF signature and no loader accepts it. -/
def malformedBytes : Bytes := [0, 1, 2, 3]

/-- A concrete well-formed redaction area. -/
def someArea : RedactionArea := ⟨1, 10, 10, 50, 40⟩

/-- An environment in which every strategy throws and every load fails, as
happens for a truncated source buffer. -/
def failingEnv : PdfEnv where
  loadOk := fun _ => false
  screenshotRun := fun _ _ => Except.error ()
  overlayRun := fun _ _ => Except.error ()
  rebuildRun := fun _ _ => Except.error ()
  canvasRun := fun _ _ => Except.error ()

/-- A plausible validated output buffer: the PDF signature followed by
filler up to the minimum plausible size. -/
def goodBytes : Bytes := pdfSignature ++ List.replicate 996 0x20

/-- An environment in which the rasterize-rebuild (screenshot) strategy
produces a valid candidate and the structural strategies throw. -/
def rasterOkEnv : PdfEnv where
  loadOk := fun _ => true
  screenshotRun := fun _ _ => Except.ok goodBytes
  overlayRun := fun _ _ => Except.error ()
  rebuildRun := fun _ _ => Except.error ()
  canvasRun := fun _ _ => Except.error ()

/-! ## Helper lemmas -/

/-- An accepted attempt is a candidate that passed full validation. -/
theorem acceptAttempt_eq_some {loadOk : Bytes → Bool} {r : Except Unit Bytes}
    {b : Bytes} (h : acceptAttempt loadOk r = some b) :
    r = Except.ok b ∧ validCandidate loadOk b = true := by
  cases r with
  | ok c =>
    simp only [acceptAttempt] at h
    split at h
    · cases h
      exact ⟨rfl, by assumption⟩
    · cases h
  | error e => simp [acceptAttempt] at h

/-- `processRedactions` returns a validated candidate or the original bytes. -/
theorem processRedactions_valid_or_orig (env : PdfEnv) (orig : Bytes)
    (areas : List RedactionArea) :
    processRedactions env orig areas = orig ∨
      validCandidate env.loadOk (processRedactions env orig areas) = true := by
  unfold processRedactions rebuildFallback
  split
  · exact Or.inl rfl
  · split
    · split
      · split
        · exact Or.inr (by assumption)
        · split
          · split
            · exact Or.inr (by assumption)
            · exact Or.inl rfl
          · exact Or.inl rfl
      · split
        · split
          · exact Or.inr (by assumption)
          · exact Or.inl rfl
        · exact Or.inl rfl
    · exact Or.inl rfl

/-! ## Claim theorems -/

/-- C4: a strategy's candidate buffer passes validation exactly when all
three checks hold — its length reaches the minimum plausible size, its
leading bytes are the PDF signature, and the strict reload succeeds — and
the executor accepts a returned candidate exactly under that condition. -/
theorem c4_validator_iff (loadOk : Bytes → Bool) (b : Bytes) :
    (validCandidate loadOk b = true ↔
      minPlausibleSize ≤ b.length ∧ hasPdfHeader b = true ∧ loadOk b = true) ∧
    acceptAttempt loadOk (Except.ok b) =
      (if validCandidate loadOk b then some b else none) := by
  constructor
  · simp [validCandidate, Bool.and_eq_true, decide_eq_true_iff, and_assoc]
  · rfl

/-- C7: with an empty redaction-area list, `redactPDF` returns the input
bytes unchanged for every environment and `copyOnly` flag (so no strategy
outcome and no validation verdict can influence the result), and
`processRedactions` likewise short-circuits to the original bytes. -/
theorem c7_empty_areas_short_circuit (env : PdfEnv) (orig : Bytes)
    (copyOnly : Bool) :
    redactPDF env orig [] copyOnly = orig ∧
      processRedactions env orig [] = orig := by
  constructor
  · simp [redactPDF]
  · simp [processRedactions]

/-- C10: with the `copyOnly` flag set, `redactPDF` returns the input bytes
unchanged for every environment and every (possibly non-empty) area list,
without any strategy or validation outcome influencing the result. -/
theorem c10_copy_only_returns_original (env : PdfEnv) (orig : Bytes)
    (areas : List RedactionArea) :
    redactPDF env orig areas true = orig := by
  simp [redactPDF]

/-- A buffer passing validation is nonempty (its length reaches the
minimum plausible size). -/
theorem validCandidate_ne_nil {loadOk : Bytes → Bool} {b : Bytes}
    (h : validCandidate loadOk b = true) : b ≠ [] := by
  simp only [validCandidate, Bool.and_eq_true, decide_eq_true_iff] at h
  intro hnil
  rw [hnil] at h
  simp [minPlausibleSize] at h

/-- C1 amended: `redactPDF` always resolves to a buffer that is either a
strategy candidate passing all three validation checks (hence beginning
with `%PDF` and re-loadable) or the original input bytes unchanged, and
its result is nonempty whenever the input is nonempty. -/
theorem c1_amended_valid_or_original (env : PdfEnv) (orig : Bytes)
    (areas : List RedactionArea) (copyOnly : Bool) :
    (redactPDF env orig areas copyOnly = orig ∨
      validCandidate env.loadOk (redactPDF env orig areas copyOnly) = true) ∧
    (orig ≠ [] → redactPDF env orig areas copyOnly ≠ []) := by
  have main : redactPDF env orig areas copyOnly = orig ∨
      validCandidate env.loadOk (redactPDF env orig areas copyOnly) = true := by
    unfold redactPDF
    split
    · exact Or.inl rfl
    · split
      next b hb => exact Or.inr (acceptAttempt_eq_some hb).2
      next hb =>
        split
        next b hb2 => exact Or.inr (acceptAttempt_eq_some hb2).2
        next hb2 =>
          split
          next b hb3 => exact Or.inr (acceptAttempt_eq_some hb3).2
          next hb3 => exact Or.inl rfl
  refine ⟨main, fun hne => ?_⟩
  rcases main with h | h
  · rw [h]; exact hne
  · exact validCandidate_ne_nil h

/-- C1 counterexample: for a truncated, malformed input buffer every
strategy fails, `redactPDF` resolves to the original malformed bytes, and
those bytes do not begin with `%PDF` — so the claimed guarantee fails for
malformed input. -/
theorem c1_counterexample :
    redactPDF failingEnv malformedBytes [someArea] false = malformedBytes ∧
    hasPdfHeader (redactPDF failingEnv malformedBytes [someArea] false) = false := by
  constructor
  · rfl
  · rfl

/-- C2: when every strategy either throws or produces a candidate failing
validation, `redactPDF` returns the original input bytes. -/
theorem c2_exhaustion_returns_original (env : PdfEnv) (orig : Bytes)
    (areas : List RedactionArea)
    (hs : ∀ c, env.screenshotRun orig areas = Except.ok c →
      validCandidate env.loadOk c = false)
    (ho : ∀ c, env.overlayRun orig areas = Except.ok c →
      validCandidate env.loadOk c = false)
    (hr : ∀ c, env.rebuildRun orig areas = Except.ok c →
      validCandidate env.loadOk c = false)
    (hc : ∀ c, env.canvasRun orig areas = Except.ok c →
      validCandidate env.loadOk c = false) :
    redactPDF env orig areas false = orig := by
  have hfb : rebuildFallback env orig areas = orig := by
    unfold rebuildFallback
    split
    next c hcr => simp [hr c hcr]
    next => rfl
  have hproc : processRedactions env orig areas = orig := by
    unfold processRedactions
    split
    · rfl
    · split
      · split
        next c hoc => simp [ho c hoc, hfb]
        next => exact hfb
      · rfl
  have h1 : acceptAttempt env.loadOk (env.screenshotRun orig areas) = none := by
    cases hscr : env.screenshotRun orig areas with
    | ok c => simp [acceptAttempt, hs c hscr]
    | error e => rfl
  have h3 : acceptAttempt env.loadOk (env.canvasRun orig areas) = none := by
    cases hcv : env.canvasRun orig areas with
    | ok c => simp [acceptAttempt, hc c hcv]
    | error e => rfl
  unfold redactPDF
  split
  · rfl
  · rw [h1, hproc]
    by_cases hvo : validCandidate env.loadOk orig = true
    · simp [acceptAttempt, hvo]
    · rw [Bool.not_eq_true] at hvo
      have h2 : acceptAttempt env.loadOk (Except.ok orig) = none := by
        simp [acceptAttempt, hvo]
      rw [h2, h3]

/-- C2 witness: a truncated buffer exhausting every strategy comes back
byte-identical. -/
theorem c2_exhaustion_witness :
    redactPDF failingEnv malformedBytes [someArea] false = malformedBytes :=
  c2_exhaustion_returns_original failingEnv malformedBytes [someArea]
    (fun _ h => Except.noConfusion h) (fun _ h => Except.noConfusion h)
    (fun _ h => Except.noConfusion h) (fun _ h => Except.noConfusion h)

/-- C3: the executor's fixed priority order.  A validated
rasterize-rebuild (screenshot) candidate wins outright — in particular
when direct overlay would fail validation, the rasterize output, not the
original, is returned; when the rasterize attempt is rejected, a validated
direct-overlay candidate wins; when that also fails, a validated
rebuild-copy candidate wins. -/
theorem c3_strategy_priority (env : PdfEnv) (orig : Bytes)
    (areas : List RedactionArea) (hne : areas ≠ []) :
    (∀ c, env.screenshotRun orig areas = Except.ok c →
      validCandidate env.loadOk c = true →
      redactPDF env orig areas false = c) ∧
    (∀ c, acceptAttempt env.loadOk (env.screenshotRun orig areas) = none →
      env.loadOk orig = true →
      env.overlayRun orig areas = Except.ok c →
      validCandidate env.loadOk c = true →
      redactPDF env orig areas false = c) ∧
    (∀ c, acceptAttempt env.loadOk (env.screenshotRun orig areas) = none →
      env.loadOk orig = true →
      (∀ d, env.overlayRun orig areas = Except.ok d →
        validCandidate env.loadOk d = false) →
      env.rebuildRun orig areas = Except.ok c →
      validCandidate env.loadOk c = true →
      redactPDF env orig areas false = c) := by
  have hcond : (false || areas.isEmpty) = false := by
    simp [List.isEmpty_iff, hne]
  refine ⟨?_, ?_, ?_⟩
  · intro c hscr hval
    unfold redactPDF
    rw [if_neg (by simp [hcond]), hscr]
    simp [acceptAttempt, hval]
  · intro c hnone hload hov hval
    have hproc : processRedactions env orig areas = c := by
      unfold processRedactions
      rw [if_neg (by simp [List.isEmpty_iff, hne]), if_pos hload, hov]
      simp [hval]
    unfold redactPDF
    rw [if_neg (by simp [hcond]), hnone, hproc]
    simp [acceptAttempt, hval]
  · intro c hnone hload hov hre hval
    have hproc : processRedactions env orig areas = c := by
      have hfb : rebuildFallback env orig areas = c := by
        unfold rebuildFallback
        rw [hre]
        simp [hval]
      unfold processRedactions
      rw [if_neg (by simp [List.isEmpty_iff, hne]), if_pos hload]
      cases hoc : env.overlayRun orig areas with
      | ok d => simp [hov d hoc, hfb]
      | error e => exact hfb
    unfold redactPDF
    rw [if_neg (by simp [hcond]), hnone, hproc]
    simp [acceptAttempt, hval]

/-- A list is a Boolean prefix of itself followed by anything. -/
theorem isPrefixOf_append_self (l r : Bytes) :
    List.isPrefixOf l (l ++ r) = true := by
  induction l with
  | nil => simp
  | cons a t ih => simp [List.isPrefixOf, ih]

/-- The concrete good buffer passes all three validation checks in the
rasterize-success environment. -/
theorem goodBytes_valid : validCandidate rasterOkEnv.loadOk goodBytes = true := by
  have hlen : goodBytes.length = 1000 := by
    show (pdfSignature ++ List.replicate 996 0x20).length = 1000
    rw [List.length_append, List.length_replicate]
    rfl
  have hhd : hasPdfHeader goodBytes = true := isPrefixOf_append_self pdfSignature _
  simp [validCandidate, hlen, hhd, minPlausibleSize, rasterOkEnv]

/-- C3 witness: with a validated screenshot candidate and throwing
structural strategies, the rasterize output is returned. -/
theorem c3_priority_witness :
    redactPDF rasterOkEnv malformedBytes [someArea] false = goodBytes :=
  (c3_strategy_priority rasterOkEnv malformedBytes [someArea]
    (by simp)).1 goodBytes rfl goodBytes_valid

/-- A rectangle stored at display scale 2 (its x is 100 scaled pixels). -/
def scaledArea : RedactionArea := ⟨1, 100, 0, 50, 20⟩

/-- C5 counterexample: the code never divides by the display scale, so for
an area drawn at `displayScale = 2` the drawn x-coordinate disagrees with
the claimed formula `clamp(area.x / displayScale, 0, pageWidthPts)`. -/
theorem c5_no_scale_division_counterexample :
    overlayX scaledArea 612 ≠ specDocX scaledArea 612 2 := by
  have h1 : overlayX scaledArea 612 = 100 := by
    unfold overlayX scaledArea
    rw [min_eq_left (by norm_num), max_eq_right (by norm_num)]
  have h2 : specDocX scaledArea 612 2 = 50 := by
    unfold specDocX clamp scaledArea
    norm_num
  rw [h1, h2]
  norm_num

/-- C5 amended: the overlay mapping applies the stored display coordinates
directly (no division by a display scale), so the claimed formulas hold
exactly with `displayScale = 1` for areas with nonnegative `y` and
`height`; the top-of-display rectangle (`y = 0`) maps to a document
rectangle whose top edge is `pageHeightPts` whenever
`1 ≤ height ≤ pageHeightPts`. -/
theorem c5_amended_mapping (a : RedactionArea) (pageWidth pageHeight : ℚ)
    (hy : 0 ≤ a.y) (hh : 0 ≤ a.height) :
    overlayX a pageWidth = specDocX a pageWidth 1 ∧
    overlayY a pageHeight = specDocY a pageHeight 1 ∧
    overlayW a pageWidth = specDocW a pageWidth 1 ∧
    (a.y = 0 → 1 ≤ a.height → a.height ≤ pageHeight →
      overlayY a pageHeight + overlayH a = pageHeight) := by
  have hX : overlayX a pageWidth = specDocX a pageWidth 1 := by
    unfold overlayX specDocX clamp
    rw [div_one]
  have hY : overlayY a pageHeight = specDocY a pageHeight 1 := by
    unfold overlayY specDocY clamp
    rw [div_one, min_eq_left (sub_le_self pageHeight (add_nonneg hy hh))]
  have hW : overlayW a pageWidth = specDocW a pageWidth 1 := by
    unfold overlayW specDocW clamp
    rw [div_one, hX]
  refine ⟨hX, hY, hW, ?_⟩
  intro h0 h1 hle
  have hYv : overlayY a pageHeight = pageHeight - a.height := by
    unfold overlayY
    rw [h0, zero_add, max_eq_right (sub_nonneg.mpr hle)]
  have hHv : overlayH a = a.height := by
    unfold overlayH
    rw [h0, zero_add, max_self, sub_zero, min_self, max_eq_right h1]
  rw [hYv, hHv, sub_add_cancel]

/-- C5 witness: a rectangle at the top of the display with height 20 on a
792-point page maps so that its document-space top edge is 792. -/
theorem c5_axis_flip_witness :
    overlayY ⟨1, 10, 0, 50, 20⟩ 792 + overlayH ⟨1, 10, 0, 50, 20⟩ = 792 :=
  (c5_amended_mapping ⟨1, 10, 0, 50, 20⟩ 612 792 (by norm_num)
    (by norm_num)).2.2.2 rfl (by norm_num) (by norm_num)

/-- Every area in the store came in through `addFromMouseUp` over the empty
store, so each one satisfies the normalized bounds. -/
theorem finishSelection_bounds (c a : RedactionArea)
    (h : finishSelection c = some a) :
    a.width = |c.width| ∧ a.height = |c.height| ∧
      minSelectionSize < a.width ∧ minSelectionSize < a.height := by
  unfold finishSelection at h
  split at h
  next hcond =>
    cases h
    exact ⟨rfl, rfl, hcond.1, hcond.2⟩
  next => cases h

/-- C6: the store invariant — strictly more than `minSelectionSize` wide
and high, with nonnegative extents — holds for every area a finished drag
can insert, is preserved by add, remove-by-index and clear, and a 5-by-5
drag is never added. -/
theorem c6_store_invariant :
    (∀ store c, storeInv store → storeInv (addFromMouseUp store c)) ∧
    finishSelection ⟨1, 0, 0, 5, 5⟩ = none ∧
    (∀ c a, finishSelection c = some a →
      a.width = |c.width| ∧ a.height = |c.height| ∧
      0 ≤ a.width ∧ 0 ≤ a.height ∧
      minSelectionSize < a.width ∧ minSelectionSize < a.height) ∧
    (∀ store idx, storeInv store → storeInv (removeAreaAt store idx)) ∧
    storeInv clearAreas := by
  have hsel : ∀ c a, finishSelection c = some a →
      a.width = |c.width| ∧ a.height = |c.height| ∧
      0 ≤ a.width ∧ 0 ≤ a.height ∧
      minSelectionSize < a.width ∧ minSelectionSize < a.height := by
    intro c a h
    obtain ⟨hw, hh, hmw, hmh⟩ := finishSelection_bounds c a h
    exact ⟨hw, hh, hw ▸ abs_nonneg _, hh ▸ abs_nonneg _, hmw, hmh⟩
  refine ⟨?_, ?_, hsel, ?_, ?_⟩
  · intro store c hinv
    unfold addFromMouseUp
    cases hfs : finishSelection c with
    | none => exact hinv
    | some a =>
      intro x hx
      rcases List.mem_append.mp hx with hx | hx
      · exact hinv x hx
      · obtain rfl : x = a := by simpa using hx
        obtain ⟨_, _, _, _, hmw, hmh⟩ := hsel c x hfs
        exact ⟨hmw, hmh⟩
  · unfold finishSelection
    have hcond : ¬(minSelectionSize < |(5 : ℚ)| ∧ minSelectionSize < |(5 : ℚ)|) := by
      intro hc
      have h5 : |(5 : ℚ)| = 5 := abs_of_nonneg (by norm_num)
      have := hc.1
      rw [h5, minSelectionSize] at this
      norm_num at this
    exact if_neg hcond
  · intro store idx hinv x hx
    have hsub : List.Sublist (removeAreaAt store idx) store := by
      have h1 : List.Sublist (store.enum.filter (fun p => p.1 ≠ idx)) store.enum :=
        List.filter_sublist _
      have h2 := h1.map Prod.snd
      have h3 : store.enum.map Prod.snd = store := List.enumFrom_map_snd 0 store
      rw [h3] at h2
      exact h2
    exact hinv x (hsub.subset hx)
  · intro x hx
    rw [clearAreas] at hx
    cases hx

/-- An unlock environment whose source has three pages. -/
def unlockTestEnv : UnlockEnv where
  loadIgnoreEnc := fun _ => Except.ok [7, 8, 9]
  copyPage := fun p => p
  savePages := fun _ => []

/-- C9: when the source loads with encryption ignored, `unlockPdf`
serializes a destination document obtained by copying each source page in
order, so the destination's page count equals the source page count and
its i-th page is the copy of the source's i-th page. -/
theorem c9_unlock_preserves_pages (env : UnlockEnv) (b : Bytes)
    (doc : List Nat) (h : env.loadIgnoreEnc b = Except.ok doc) :
    unlockPdf env b = Except.ok (env.savePages (copyAllPages env doc)) ∧
    unlockDoc env b = Except.ok (copyAllPages env doc) ∧
    (copyAllPages env doc).length = doc.length ∧
    (∀ i, i < doc.length →
      (copyAllPages env doc).getD i 0 = env.copyPage (doc.getD i 0)) := by
  refine ⟨?_, ?_, ?_, ?_⟩
  · simp [unlockPdf, h]
  · simp [unlockDoc, h]
  · simp [copyAllPages]
  · intro i hi
    unfold copyAllPages
    rw [List.getD_eq_getElem?_getD, List.getElem?_map, List.getElem?_range hi]
    rfl

/-- C9 witness: a three-page source unlocks to a three-page destination. -/
theorem c9_unlock_witness :
    (copyAllPages unlockTestEnv [7, 8, 9]).length = 3 :=
  ((c9_unlock_preserves_pages unlockTestEnv [] [7, 8, 9] rfl).2.2.1).trans rfl

/-- C8: `isPdfEncrypted` returns `true` exactly when the strict load fails
with an `Error` whose message mentions encryption, password or permission;
a successful load or any other failure yields `false`. -/
theorem c8_encryption_detection (strictLoad : StrictLoad) (b : Bytes) :
    isPdfEncrypted strictLoad b = true ↔
      ∃ msg, strictLoad b = Except.error (some msg) ∧
        mentionsEncryption msg = true := by
  unfold isPdfEncrypted
  cases h : strictLoad b with
  | ok u => simp [h]
  | error e =>
    cases e with
    | none => simp
    | some msg => simp

end PdfRedact
